import Mathlib

/-!
Shallow embedding of the core of `src/main.py` (a TCM prescription
recording/printing application): the receipt page-layout estimator
(`calculate_page_height`) and the word-frequency completion indexer
(`load_words_from_database`), together with the surrounding save flow.

Python floats are modelled as exact rationals (ℚ).  Python strings are
modelled as their code-point sequences (`List Char`), with `str.strip()`
embedded as `pyTrim`, `str.split('\n')` as `splitNl`, and
`re.split(r'[...]+', s)` as `splitRuns`; Python truthiness of a string
is non-emptiness.
-/

namespace TCM

/-- A Python string, as its sequence of code points. -/
abbrev PyStr := List Char

/-- `s.strip()`: drop leading and trailing whitespace. -/
def pyTrim (s : PyStr) : PyStr :=
  ((s.dropWhile Char.isWhitespace).reverse.dropWhile Char.isWhitespace).reverse

/-- `s.split('\n')`: split at every newline, keeping empty pieces
(`''.split('\n') == ['']`, `'a\n'.split('\n') == ['a', '']`). -/
def splitNl : PyStr → List PyStr
  | [] => [[]]
  | c :: cs =>
    if c = '\n' then [] :: splitNl cs
    else
      match splitNl cs with
      | [] => [[c]]
      | t :: ts => (c :: t) :: ts

/-- `re.split(pattern, s)` for a one-character-class pattern with `+`:
splits `s` at maximal runs of characters satisfying `p` (so adjacent
delimiters yield no internal empty pieces, while a leading or trailing
delimiter run yields an empty first or last piece, exactly as Python
`re.split` does). -/
def splitRuns (p : Char → Bool) : PyStr → List PyStr
  | [] => [[]]
  | c :: cs =>
    if p c then
      match cs, splitRuns p cs with
      | d :: _, r => if p d then r else [] :: r
      | [], r => [] :: r
    else
      match splitRuns p cs with
      | t :: ts => (c :: t) :: ts
      | [] => [[c]]

/-! ## Settings and the layout estimator (`calculate_page_height`) -/

/-- The persisted settings object (`class Settings`, src/main.py lines
31-51), restricted to the fields the estimator and indexer read.
Numeric parameters are rationals, text fields are strings
(empty = unset/falsy). -/
structure Settings where
  default_doctor : PyStr
  default_phone : PyStr
  clinic_name : PyStr
  clinic_address : PyStr
  clinic_phone : PyStr
  clinic_license : PyStr
  font_size : ℚ
  line_spacing : ℚ
  safety_margin : ℚ
  margin_size : ℚ
  empty_ratio : ℚ

/-- `base_line_height = (font_size / 72) * 2.54 * line_spacing`
(src/main.py line 1208). -/
def base_line_height (s : Settings) : ℚ :=
  s.font_size / 72 * (254 / 100) * s.line_spacing

/-- The wrapped-line count `max(1, len(text) // d + 1)` used for
diagnosis, usage, clinic address (divisor 18) and prescription lines
(divisor 16); `//` is integer (Nat) division. -/
def wrapLines (n d : ℕ) : ℕ := max 1 (n / d + 1)

/-- The prescription-body loop of `calculate_page_height`
(src/main.py lines 1249-1256): walk the split lines with a running
`line_count`; blank lines are skipped; once the count would exceed 15
the loop breaks, contributing nothing further; otherwise each line
contributes `base * max(1, len(line.strip()) // 16 + 1)`. -/
def prescriptionLoop (base : ℚ) : List PyStr → ℕ → ℚ
  | [], _ => 0
  | line :: rest, line_count =>
    let l := pyTrim line
    if l.isEmpty then prescriptionLoop base rest line_count
    else if 15 < line_count + 1 then 0
    else base * (wrapLines l.length 16 : ℚ) + prescriptionLoop base rest (line_count + 1)

/-- The `content_height` accumulator of `calculate_page_height`
(src/main.py lines 1211-1278), term by term in source order: title (1.2
lines), optional clinic address/phone, prescription title (1.0),
separator (0.6), patient block (4), separator (0.6), optional wrapped
diagnosis, prescription label (1), the capped prescription-body loop,
optional wrapped usage, separator (0.6), optional doctor/phone/license
lines, final separator (0.6). -/
def content_height (s : Settings) (diagnosis prescription usg : PyStr) : ℚ :=
  let base := base_line_height s
  base * (12/10)
  + (if s.clinic_address.isEmpty then 0
     else base * (wrapLines s.clinic_address.length 18 : ℚ))
  + (if s.clinic_phone.isEmpty then 0 else base)
  + base * 1
  + base * (6/10)
  + base * 4
  + base * (6/10)
  + (if (pyTrim diagnosis).isEmpty then 0
     else base * (wrapLines (pyTrim diagnosis).length 18 : ℚ))
  + base
  + (if (pyTrim prescription).isEmpty then 0
     else prescriptionLoop base (splitNl (pyTrim prescription)) 0)
  + (if (pyTrim usg).isEmpty then 0 else base * (wrapLines (pyTrim usg).length 18 : ℚ))
  + base * (6/10)
  + (if s.default_doctor.isEmpty then 0 else base)
  + (if s.default_phone.isEmpty then 0 else base)
  + (if s.clinic_license.isEmpty then 0 else base)
  + base * (6/10)

/-- The raw (pre-clamp) `total_height` of `calculate_page_height`
(src/main.py lines 1282-1286): content height times the empty ratio,
plus top and bottom margins. -/
def raw_total_height (s : Settings) (diagnosis prescription usg : PyStr) : ℚ :=
  content_height s diagnosis prescription usg * s.empty_ratio + s.margin_size * 2

/-- `calculate_page_height` (src/main.py lines 1205-1293): the raw total
height clamped to the 29.7 cm A4 ceiling. -/
def calculate_page_height (s : Settings) (diagnosis prescription usg : PyStr) : ℚ :=
  if 297/10 < raw_total_height s diagnosis prescription usg then 297/10
  else raw_total_height s diagnosis prescription usg

/-! ## Completion indexer (`load_words_from_database`, src/main.py lines 247-297) -/

/-- One database row as fetched by
`SELECT patient_name, diagnosis, prescription, usage, doctor` (line 252). -/
structure PrescriptionRecord where
  patient_name : PyStr
  diagnosis : PyStr
  prescription : PyStr
  usage : PyStr
  doctor : PyStr
  deriving Repr, DecidableEq

/-- The diagnosis delimiter class `[，,。、；：:；\s\[\]【】]`
(src/main.py line 264): fullwidth and ASCII comma, ideographic period,
enumeration comma, fullwidth semicolon, fullwidth and ASCII colon, ASCII
and fullwidth square brackets, and whitespace.  Note: the ASCII period
`.` is NOT in the class. -/
def diagDelim (c : Char) : Bool :=
  c == '，' || c == ',' || c == '。' || c == '、' || c == '；' || c == '：' ||
  c == ':' || c == '[' || c == ']' || c == '【' || c == '】' || c.isWhitespace

/-- The medicine-part delimiter class `[，,、\s]` (src/main.py line 274). -/
def medDelim (c : Char) : Bool :=
  c == '，' || c == ',' || c == '、' || c.isWhitespace

/-- The unit-character class `[克g粒片包钱两升]` (src/main.py line 278). -/
def isUnitChar (c : Char) : Bool :=
  c == '克' || c == 'g' || c == '粒' || c == '片' || c == '包' ||
  c == '钱' || c == '两' || c == '升'

/-- The medicine-token strip pipeline (src/main.py lines 276-278):
`part.strip()`, then `re.sub(r'\d+.*$', '', part)` (cut from the first
digit onward), then `re.sub(r'[克g粒片包钱两升].*$', '', part)` (cut from
the first unit character onward). -/
def stripMedicine (part : PyStr) : PyStr :=
  ((pyTrim part).takeWhile (fun c => !c.isDigit)).takeWhile (fun c => !isUnitChar c)

/-- A `collections.Counter` keyed by strings, modelled as an association
list in key-insertion order; `bump` is `counter[key] += 1`. -/
def bump (key : PyStr) : List (PyStr × ℕ) → List (PyStr × ℕ)
  | [] => [(key, 1)]
  | (k, c) :: rest => if k = key then (k, c + 1) :: rest else (k, c) :: bump key rest

/-- The keys of a counter, in insertion order (`counter.keys()`). -/
def keys (l : List (PyStr × ℕ)) : List PyStr := l.map Prod.fst

/-- The four frequency counters of `load_words_from_database`
(src/main.py lines 256-259). -/
structure Counters where
  medicine_words : List (PyStr × ℕ)
  diagnosis_words : List (PyStr × ℕ)
  prescription_phrases : List (PyStr × ℕ)
  usage_words : List (PyStr × ℕ)
  deriving Repr, DecidableEq

def initCounters : Counters := ⟨[], [], [], []⟩

/-- Diagnosis counting for one row (src/main.py lines 263-267): if the
field is non-empty, split it on `diagDelim` runs and count each token
whose trimmed length is at least 2, keyed by the trimmed token. -/
def countDiagnosis (dw : List (PyStr × ℕ)) (diagnosis : PyStr) : List (PyStr × ℕ) :=
  if diagnosis.isEmpty then dw
  else (splitRuns diagDelim diagnosis).foldl
    (fun acc w => if 2 ≤ (pyTrim w).length then bump (pyTrim w) acc else acc) dw

/-- Medicine counting over the parts of one prescription line
(src/main.py lines 274-280): strip each part, and count it if the
remaining length is in [2, 6]. -/
def countMedicineParts : List (PyStr × ℕ) → List PyStr → List (PyStr × ℕ)
  | mw, [] => mw
  | mw, part :: rest =>
    countMedicineParts
      (if 2 ≤ (stripMedicine part).length ∧ (stripMedicine part).length ≤ 6 then
        bump (stripMedicine part) mw
      else mw) rest

/-- Processing of one non-blank, already-stripped prescription line
(src/main.py lines 274-282): medicine parts, then the whole line as a
phrase when its length is at least 4. -/
def processLine (cs : Counters) (l : PyStr) : Counters :=
  let mw := countMedicineParts cs.medicine_words (splitRuns medDelim l)
  let pp := if 4 ≤ l.length then bump l cs.prescription_phrases
            else cs.prescription_phrases
  { cs with medicine_words := mw, prescription_phrases := pp }

/-- The per-line loop over `prescription.split('\n')`
(src/main.py lines 270-282): strip each line, skip blanks. -/
def processPrescription (cs : Counters) : List PyStr → Counters
  | [] => cs
  | line :: rest =>
    let l := pyTrim line
    if l.isEmpty then processPrescription cs rest
    else processPrescription (processLine cs l) rest

/-- Processing of one fetched row (src/main.py lines 261-284):
diagnosis tokens, prescription lines, then the whole usage field. -/
def processRow (cs : Counters) (r : PrescriptionRecord) : Counters :=
  let cs1 := { cs with diagnosis_words := countDiagnosis cs.diagnosis_words r.diagnosis }
  let cs2 := if r.prescription.isEmpty then cs1
             else processPrescription cs1 (splitNl r.prescription)
  if r.usage.isEmpty then cs2
  else { cs2 with usage_words := bump r.usage cs2.usage_words }

/-- All four counters for a full record set. -/
def counters (rows : List PrescriptionRecord) : Counters :=
  rows.foldl processRow initCounters

/-- Stable descending insertion: `x` is placed after every entry whose
count is at least `x`'s, so equal counts keep their existing order. -/
def insertRanked (x : PyStr × ℕ) : List (PyStr × ℕ) → List (PyStr × ℕ)
  | [] => [x]
  | y :: ys => if y.2 < x.2 then x :: y :: ys else y :: insertRanked x ys

/-- Stable sort of a counter by count descending (the order produced by
Python `Counter.most_common`, which is documented as
`sorted(items, key=count, reverse=True)` — a stable sort, so ties keep
insertion order). -/
def rankDesc (l : List (PyStr × ℕ)) : List (PyStr × ℕ) :=
  l.foldl (fun acc x => insertRanked x acc) []

/-- `counter.most_common(n)` restricted to the keys, as consumed at
src/main.py lines 286-289: top `n` entries by descending count, ties in
insertion order. -/
def most_common (l : List (PyStr × ℕ)) (n : ℕ) : List PyStr :=
  ((rankDesc l).take n).map Prod.fst

/-- Ascending insertion by string order (code-point lexicographic, the
order Python `sorted` uses on strings). -/
def insertSortedStr (x : PyStr) : List PyStr → List PyStr
  | [] => [x]
  | y :: ys => if x < y then x :: y :: ys else y :: insertSortedStr x ys

/-- Python `sorted(set(l))`: deduplicate, then sort ascending. -/
def sortedDedup (l : List PyStr) : List PyStr :=
  l.eraseDups.foldl (fun acc x => insertSortedStr x acc) []

/-- The suggestion-panel state mutated by `load_words_from_database`:
the four category word lists plus the `全部词条`/`all_words` list. -/
structure PanelState where
  medicines : List PyStr
  diagnoses : List PyStr
  phrases : List PyStr
  usages : List PyStr
  all_words : List PyStr
  deriving Repr, DecidableEq

/-- `load_words_from_database` (src/main.py lines 247-297) as a state
transformer.  `fetched` is the outcome of the record-store read inside
the `try` block: `none` means the read raised.  Per the source,
`self.all_words = []` executes BEFORE the `try` (line 248); an exception
is caught by the bare `except` (lines 296-297) and only printed, leaving
the four category lists untouched but `all_words` already cleared. -/
def load_words_from_database (st : PanelState)
    (fetched : Option (List PrescriptionRecord)) : PanelState :=
  let st1 := { st with all_words := [] }
  match fetched with
  | none => st1
  | some rows =>
    let cs := counters rows
    let aw := sortedDedup
      (keys cs.medicine_words ++ keys cs.diagnosis_words ++ keys cs.usage_words)
    { medicines := most_common cs.medicine_words 100
      diagnoses := most_common cs.diagnosis_words 50
      phrases := most_common cs.prescription_phrases 30
      usages := most_common cs.usage_words 20
      all_words := aw }

/-- `save_only` (src/main.py lines 918-924) as a function of the panel
state and the outcomes of its collaborator calls: validation, the
database insert, and the record-store read of the vocabulary refresh.
The returned Bool is whether the flow completed (success message shown
and form cleared). -/
def save_only (st : PanelState) (validated savedOk : Bool)
    (fetched : Option (List PrescriptionRecord)) : PanelState × Bool :=
  if !validated then (st, false)
  else if !savedOk then (st, false)
  else (load_words_from_database st fetched, true)

/-! ## Variant 1 of the layout estimator, modelled from the spec

The spec (§4.1) requires two selectable estimator strategies.  Only the
empty-ratio variant is present in `src/main.py`; the additive variant
belongs to repository code outside `src/`. -/

/-- Modelled from the spec: the uncapped per-line height sum of the
additive variant — "prescription body wrapped per-line at a fixed
character-width divisor" (16), with no 15-line cap (the cap is specific
to the empty-ratio variant). -/
def sumLineHeights (base : ℚ) : List PyStr → ℚ
  | [] => 0
  | line :: rest =>
    let l := pyTrim line
    if l.isEmpty then sumLineHeights base rest
    else base * (wrapLines l.length 16 : ℚ) + sumLineHeights base rest

/-- Modelled from the spec: the content height of the
additive-with-multiplicative-safety-factor variant (spec §4.1 variant 1):
"sum the exact estimated line count for every structural section (title,
separators counted as 0.6 of a line, patient info block fixed at 4 lines,
diagnosis wrapped at 18 characters, prescription body wrapped per-line at
16, usage wrapped at 18, doctor/phone lines conditionally)" — without the
clinic address/phone/license lines, which the spec says are "not present
in variant 1". -/
def content_height_v1 (s : Settings) (diagnosis prescription usg : PyStr) : ℚ :=
  let base := base_line_height s
  base * (12/10)
  + base * 1
  + base * (6/10)
  + base * 4
  + base * (6/10)
  + (if (pyTrim diagnosis).isEmpty then 0
     else base * (wrapLines (pyTrim diagnosis).length 18 : ℚ))
  + base
  + (if (pyTrim prescription).isEmpty then 0
     else sumLineHeights base (splitNl (pyTrim prescription)))
  + (if (pyTrim usg).isEmpty then 0 else base * (wrapLines (pyTrim usg).length 18 : ℚ))
  + base * (6/10)
  + (if s.default_doctor.isEmpty then 0 else base)
  + (if s.default_phone.isEmpty then 0 else base)
  + base * (6/10)

/-- Modelled from the spec: the final height of variant 1 — "add
top+bottom margins, then multiply the whole content height by a single
safety multiplier", clamped to the 29.7 cm ceiling. -/
def calculate_page_height_v1 (s : Settings) (diagnosis prescription usg : PyStr) : ℚ :=
  let total := (content_height_v1 s diagnosis prescription usg + s.margin_size * 2)
    * s.safety_margin
  if 297/10 < total then 297/10 else total

/-! ## Auxiliary predicates and concrete inputs -/

/-- Counts are non-increasing along the list. -/
def CountSorted (l : List (PyStr × ℕ)) : Prop :=
  l.Pairwise (fun a b => b.2 ≤ a.2)

/-- The default settings of `class Settings` (src/main.py lines 34-49):
font 9 pt, line spacing 0.85, safety margin 1.5, margin 0.2 cm, empty
ratio 4.0, all text fields unset. -/
def defaultSettings : Settings :=
  ⟨[], [], [], [], [], [], 9, 17/20, 3/2, 1/5, 4⟩

/-- An extreme but positive settings value: font 7200 pt (so one line is
254 cm tall), spacing 1, margin 0.2 cm, empty ratio 4. -/
def hugeSettings : Settings :=
  ⟨[], [], [], [], [], [], 7200, 1, 3/2, 1/5, 4⟩

/-- A previously built vocabulary snapshot for the suggestion panel. -/
def prevPanel : PanelState :=
  ⟨["丹参".toList], ["脾虚".toList], ["黄芪15g，当归10g".toList],
   ["水煎服".toList], ["丹参".toList]⟩

/-- The prescription line of the category-membership test. -/
def sampleLine : PyStr := "黄芪15g，当归10g".toList

/-- A record whose prescription body is exactly `sampleLine`. -/
def sampleRow : PrescriptionRecord := ⟨"张三".toList, [], sampleLine, [], []⟩

/-! ## Helper lemmas for the layout estimator -/

theorem base_line_height_nonneg (s : Settings)
    (hf : 0 ≤ s.font_size) (hl : 0 ≤ s.line_spacing) :
    0 ≤ base_line_height s := by
  unfold base_line_height
  exact mul_nonneg (mul_nonneg (div_nonneg hf (by norm_num)) (by norm_num)) hl

theorem base_line_height_pos (s : Settings)
    (hf : 0 < s.font_size) (hl : 0 < s.line_spacing) :
    0 < base_line_height s := by
  unfold base_line_height
  exact mul_pos (mul_pos (div_pos hf (by norm_num)) (by norm_num)) hl

theorem prescriptionLoop_nonneg {base : ℚ} (hb : 0 ≤ base) :
    ∀ (l : List PyStr) (c : ℕ), 0 ≤ prescriptionLoop base l c := by
  intro l
  induction l with
  | nil => intro c; simp [prescriptionLoop]
  | cons line rest ih =>
    intro c
    simp only [prescriptionLoop]
    split
    · exact ih c
    · split
      · exact le_refl 0
      · exact add_nonneg (mul_nonneg hb (Nat.cast_nonneg _)) (ih (c + 1))

set_option maxHeartbeats 1000000 in
theorem content_height_nonneg (s : Settings) (d p u : PyStr)
    (hf : 0 ≤ s.font_size) (hl : 0 ≤ s.line_spacing) :
    0 ≤ content_height s d p u := by
  have hb : 0 ≤ base_line_height s := base_line_height_nonneg s hf hl
  have hw1 : (0:ℚ) ≤ base_line_height s * (wrapLines s.clinic_address.length 18 : ℚ) :=
    mul_nonneg hb (Nat.cast_nonneg _)
  have hw2 : (0:ℚ) ≤ base_line_height s * (wrapLines (pyTrim d).length 18 : ℚ) :=
    mul_nonneg hb (Nat.cast_nonneg _)
  have hw3 : (0:ℚ) ≤ base_line_height s * (wrapLines (pyTrim u).length 18 : ℚ) :=
    mul_nonneg hb (Nat.cast_nonneg _)
  have hp0 : 0 ≤ prescriptionLoop (base_line_height s) (splitNl (pyTrim p)) 0 :=
    prescriptionLoop_nonneg hb _ _
  simp only [content_height]
  split_ifs <;> linarith [hb, hw1, hw2, hw3, hp0]

/-- C1 — For every form content and every settings value with positive
font size, line spacing, empty ratio and margin, `calculate_page_height`
returns a value in [0, 29.7] cm, and it returns exactly 29.7 whenever the
raw computed value (content height times the empty ratio, plus twice the
margin) exceeds 29.7. -/
theorem estimator_output_bounds (s : Settings) (d p u : PyStr)
    (hf : 0 < s.font_size) (hl : 0 < s.line_spacing)
    (he : 0 < s.empty_ratio) (hm : 0 < s.margin_size) :
    0 ≤ calculate_page_height s d p u ∧
    calculate_page_height s d p u ≤ 297/10 ∧
    (297/10 < raw_total_height s d p u →
      calculate_page_height s d p u = 297/10) := by
  have hc : 0 ≤ content_height s d p u := content_height_nonneg s d p u hf.le hl.le
  have hr : 0 ≤ raw_total_height s d p u := by
    have h1 : 0 ≤ content_height s d p u * s.empty_ratio := mul_nonneg hc he.le
    unfold raw_total_height
    linarith
  unfold calculate_page_height
  split
  · exact ⟨by norm_num, le_refl _, fun _ => rfl⟩
  · next h => exact ⟨hr, le_of_not_lt h, fun hlt => absurd hlt h⟩

/-- Witness for C1 at the default settings and empty form content. -/
theorem estimator_output_bounds_witness :
    0 ≤ calculate_page_height defaultSettings [] [] [] ∧
    calculate_page_height defaultSettings [] [] [] ≤ 297/10 ∧
    (297/10 < raw_total_height defaultSettings [] [] [] →
      calculate_page_height defaultSettings [] [] [] = 297/10) :=
  estimator_output_bounds defaultSettings [] [] []
    (by norm_num [defaultSettings]) (by norm_num [defaultSettings])
    (by norm_num [defaultSettings]) (by norm_num [defaultSettings])

/-- C10 — `calculate_page_height` reads every parameter except
`safety_margin`: two invocations whose inputs differ only in the value of
`safety_margin` return equal heights. -/
theorem safety_margin_has_no_effect (s : Settings) (m₁ m₂ : ℚ) (d p u : PyStr) :
    calculate_page_height { s with safety_margin := m₁ } d p u
      = calculate_page_height { s with safety_margin := m₂ } d p u := rfl

/-- C2 — In the additive-with-multiplicative-safety-factor variant
(modelled from the spec; this variant is not part of `src/main.py`), the
final page height is the summed section line heights plus top and bottom
margins, the whole multiplied by the `safety_margin` parameter, clamped
to 29.7 cm. -/
theorem v1_height_formula (s : Settings) (d p u : PyStr) :
    calculate_page_height_v1 s d p u
      = min (297/10)
          ((content_height_v1 s d p u + s.margin_size * 2) * s.safety_margin) := by
  unfold calculate_page_height_v1
  rcases le_or_lt ((content_height_v1 s d p u + s.margin_size * 2) * s.safety_margin)
    (297/10) with h | h
  · rw [if_neg (not_lt.mpr h), min_eq_right h]
  · rw [if_pos h, min_eq_left h.le]

/-! ## The 15-line cap (C3) -/

theorem prescriptionLoop_all_short (base : ℚ) :
    ∀ (l : List PyStr) (c : ℕ),
      (∀ x ∈ l, (pyTrim x).isEmpty = false ∧ (pyTrim x).length ≤ 15) →
      c ≤ 15 →
      prescriptionLoop base l c = (min l.length (15 - c) : ℕ) * base := by
  intro l
  induction l with
  | nil => intro c h hc; simp [prescriptionLoop]
  | cons line rest ih =>
    intro c h hc
    obtain ⟨hne, hlen⟩ := h line (List.mem_cons_self _ _)
    have hrest := fun x hx => h x (List.mem_cons_of_mem _ hx)
    simp only [prescriptionLoop, hne, Bool.false_eq_true, if_false]
    rcases Nat.lt_or_ge c 15 with hlt | hge
    · rw [if_neg (by omega)]
      have hwrap : wrapLines (pyTrim line).length 16 = 1 := by
        unfold wrapLines
        have : (pyTrim line).length / 16 = 0 := Nat.div_eq_of_lt (by omega)
        omega
      rw [hwrap, ih (c + 1) hrest (by omega), List.length_cons]
      have hmin : min (rest.length + 1) (15 - c) = min rest.length (15 - (c + 1)) + 1 := by
        omega
      rw [hmin]
      push_cast
      ring
    · have h15 : c = 15 := by omega
      subst h15
      rw [if_pos (by omega)]
      simp

/-- Counterexample to C3: with 20 non-blank single-width lines, the
prescription-body loop of `calculate_page_height` counts exactly 15 line
heights, not 16 — the loop breaks at the cap without measuring a
truncation-marker line. -/
theorem truncation_sixteen_counterexample :
    prescriptionLoop 1 (List.replicate 20 "丹参".toList) 0 = 15 ∧
    prescriptionLoop 1 (List.replicate 20 "丹参".toList) 0 ≠ 16 := by
  have h := prescriptionLoop_all_short 1 (List.replicate 20 "丹参".toList) 0
    (by decide) (by decide)
  rw [h]
  norm_num

/-- C3 (amended) — in the empty-ratio variant, with the fixed cap of 15
lines and at least 15 non-blank lines each wrapping to a single rendered
line, exactly 15 line heights are counted toward the computed page
height: lines beyond the cap and the truncation marker contribute
nothing. -/
theorem truncation_counts_fifteen_lines (base : ℚ) (lines : List PyStr)
    (hlen : 15 ≤ lines.length)
    (h : ∀ x ∈ lines, (pyTrim x).isEmpty = false ∧ (pyTrim x).length ≤ 15) :
    prescriptionLoop base lines 0 = 15 * base := by
  rw [prescriptionLoop_all_short base lines 0 h (by omega)]
  have : min lines.length (15 - 0) = 15 := by omega
  rw [this]
  norm_num

/-- Witness for the amended C3 at 20 lines of `丹参` and base 2. -/
theorem truncation_counts_fifteen_lines_witness :
    15 ≤ (List.replicate 20 "丹参".toList).length ∧
    (∀ x ∈ List.replicate 20 "丹参".toList,
      (pyTrim x).isEmpty = false ∧ (pyTrim x).length ≤ 15) ∧
    prescriptionLoop 2 (List.replicate 20 "丹参".toList) 0 = 15 * 2 :=
  ⟨by decide, by decide,
    truncation_counts_fifteen_lines 2 (List.replicate 20 "丹参".toList)
      (by decide) (by decide)⟩

/-! ## Monotonicity in the prescription line count (C7) -/

theorem prescriptionLoop_le_append {base : ℚ} (hb : 0 ≤ base) (x : PyStr) :
    ∀ (l : List PyStr) (c : ℕ),
      prescriptionLoop base l c ≤ prescriptionLoop base (l ++ [x]) c := by
  intro l
  induction l with
  | nil =>
    intro c
    simpa [prescriptionLoop] using prescriptionLoop_nonneg hb [x] c
  | cons line rest ih =>
    intro c
    simp only [List.cons_append, prescriptionLoop]
    split
    · exact ih c
    · split
      · exact le_refl 0
      · exact add_le_add_left (ih (c + 1)) _

theorem content_height_le_append (s : Settings) (d u p p2 x : PyStr)
    (lines : List PyStr)
    (h1 : splitNl (pyTrim p) = lines)
    (h2 : splitNl (pyTrim p2) = lines ++ [x])
    (hf : 0 ≤ s.font_size) (hl : 0 ≤ s.line_spacing) :
    content_height s d p u ≤ content_height s d p2 u := by
  have hb : 0 ≤ base_line_height s := base_line_height_nonneg s hf hl
  have key : (if (pyTrim p).isEmpty then 0
      else prescriptionLoop (base_line_height s) (splitNl (pyTrim p)) 0)
      ≤ (if (pyTrim p2).isEmpty then 0
      else prescriptionLoop (base_line_height s) (splitNl (pyTrim p2)) 0) := by
    by_cases hp2 : (pyTrim p2).isEmpty
    · have hnil : pyTrim p2 = [] := List.isEmpty_iff.mp hp2
      have hsp : splitNl (pyTrim p2) = [[]] := by rw [hnil]; rfl
      rw [h2] at hsp
      have hlines : lines = [] := by
        cases lines with
        | nil => rfl
        | cons a as =>
          have := congrArg List.length hsp
          simp at this
      rw [if_pos hp2]
      split
      · exact le_refl 0
      · rw [h1, hlines]
        simp [prescriptionLoop]
    · rw [if_neg hp2, h2]
      split
      · exact prescriptionLoop_nonneg hb _ _
      · rw [h1]
        exact prescriptionLoop_le_append hb x lines 0
  have hdiff : content_height s d p2 u - content_height s d p u =
      (if (pyTrim p2).isEmpty then 0
        else prescriptionLoop (base_line_height s) (splitNl (pyTrim p2)) 0)
      - (if (pyTrim p).isEmpty then 0
        else prescriptionLoop (base_line_height s) (splitNl (pyTrim p)) 0) := by
    simp only [content_height]
    ring
  linarith

/-- C7 — with diagnosis, usage and positive settings fixed, appending one
more line to the prescription body never decreases the value of
`calculate_page_height` (beyond the 15-line cap the added line
contributes zero, and at the 29.7 ceiling both sides are clamped, so the
height is weakly monotone in every case). -/
theorem page_height_monotone_add_line (s : Settings) (d u p p2 x : PyStr)
    (lines : List PyStr)
    (h1 : splitNl (pyTrim p) = lines)
    (h2 : splitNl (pyTrim p2) = lines ++ [x])
    (hf : 0 < s.font_size) (hl : 0 < s.line_spacing) (he : 0 < s.empty_ratio) :
    calculate_page_height s d p u ≤ calculate_page_height s d p2 u := by
  have hc := content_height_le_append s d u p p2 x lines h1 h2 hf.le hl.le
  have hraw : raw_total_height s d p u ≤ raw_total_height s d p2 u := by
    unfold raw_total_height
    have := mul_le_mul_of_nonneg_right hc he.le
    linarith
  unfold calculate_page_height
  split_ifs with ha hb2 <;> linarith

/-- Witness for C7: appending `甘草6g` to a one-line prescription at the
default settings. -/
theorem page_height_monotone_add_line_witness :
    splitNl (pyTrim "黄芪15g".toList) = ["黄芪15g".toList] ∧
    splitNl (pyTrim "黄芪15g\n甘草6g".toList) = ["黄芪15g".toList] ++ ["甘草6g".toList] ∧
    calculate_page_height defaultSettings [] "黄芪15g".toList [] ≤
      calculate_page_height defaultSettings [] "黄芪15g\n甘草6g".toList [] :=
  ⟨by decide, by decide,
    page_height_monotone_add_line defaultSettings [] [] "黄芪15g".toList
      "黄芪15g\n甘草6g".toList "甘草6g".toList ["黄芪15g".toList]
      (by decide) (by decide) (by norm_num [defaultSettings])
      (by norm_num [defaultSettings]) (by norm_num [defaultSettings])⟩

/-! ## Empty input (C8) -/

/-- Counterexample to C8: with positive but large settings (font 7200 pt,
empty ratio 4) and empty content, the returned height is the 29.7 cm
ceiling, which is strictly below the fixed title/patient/separator line
heights (7.6 lines of 254 cm) times the empty ratio — the claimed lower
bound fails once the clamp engages. -/
theorem empty_input_bound_counterexample :
    calculate_page_height hugeSettings [] [] [] = 297/10 ∧
    calculate_page_height hugeSettings [] [] []
      < base_line_height hugeSettings * (38/5) * hugeSettings.empty_ratio := by
  constructor <;>
    norm_num [calculate_page_height, raw_total_height, content_height,
      base_line_height, hugeSettings, pyTrim]

/-- C8 (amended) — for empty diagnosis, usage and prescription body and
any positive settings, `calculate_page_height` returns at least the
minimum of 29.7 and the fixed title (1.2), patient-block (4) and
separator (4 × 0.6) line heights times the empty-ratio coefficient, and
the result is strictly positive. -/
theorem empty_input_height_positive (s : Settings)
    (hf : 0 < s.font_size) (hl : 0 < s.line_spacing)
    (he : 0 < s.empty_ratio) (hm : 0 < s.margin_size) :
    0 < calculate_page_height s [] [] [] ∧
    min (297/10) (base_line_height s * (38/5) * s.empty_ratio)
      ≤ calculate_page_height s [] [] [] := by
  have hb : 0 < base_line_height s := base_line_height_pos s hf hl
  have hw : (0:ℚ) ≤ base_line_height s * (wrapLines s.clinic_address.length 18 : ℚ) :=
    mul_nonneg hb.le (Nat.cast_nonneg _)
  have hfix : base_line_height s * (48/5) ≤ content_height s [] [] [] := by
    simp only [content_height]
    norm_num [pyTrim]
    split_ifs <;> linarith [hb.le, hw]
  have hcpos : 0 < content_height s [] [] [] :=
    lt_of_lt_of_le (mul_pos hb (by norm_num)) hfix
  have hcr : base_line_height s * (38/5) ≤ content_height s [] [] [] := by
    linarith [hb.le]
  have hraw_lb : base_line_height s * (38/5) * s.empty_ratio
      ≤ raw_total_height s [] [] [] := by
    unfold raw_total_height
    have h1 := mul_le_mul_of_nonneg_right hcr he.le
    linarith
  have hraw_pos : 0 < raw_total_height s [] [] [] := by
    unfold raw_total_height
    have := mul_pos hcpos he
    linarith
  unfold calculate_page_height
  split_ifs with h
  · exact ⟨by norm_num, min_le_left _ _⟩
  · exact ⟨hraw_pos, le_trans (min_le_right _ _) hraw_lb⟩

/-- Witness for the amended C8 at the default settings. -/
theorem empty_input_height_positive_witness :
    0 < calculate_page_height defaultSettings [] [] [] ∧
    min (297/10) (base_line_height defaultSettings * (38/5) * defaultSettings.empty_ratio)
      ≤ calculate_page_height defaultSettings [] [] [] :=
  empty_input_height_positive defaultSettings
    (by norm_num [defaultSettings]) (by norm_num [defaultSettings])
    (by norm_num [defaultSettings]) (by norm_num [defaultSettings])

/-! ## Failure behaviour of the vocabulary refresh (C9) -/

/-- Counterexample to C9: when the record-store read raises, the four
category lists survive, but `self.all_words = []` has already executed
before the `try`, so the all-words list of the previous snapshot is NOT
left in place — the state differs from the previous snapshot. -/
theorem refresh_failure_counterexample :
    (load_words_from_database prevPanel none).all_words = [] ∧
    prevPanel.all_words = ["丹参".toList] ∧
    load_words_from_database prevPanel none ≠ prevPanel := by
  refine ⟨rfl, rfl, ?_⟩
  decide

/-- C9 (amended) — if the record-store read of the vocabulary refresh
raises, the failure is caught (only logged): the four category word
lists keep their previous values and the enclosing save flow completes,
but the all-words list, cleared before the `try`, is left empty rather
than at its previous value. -/
theorem refresh_failure_behavior (st : PanelState) :
    (load_words_from_database st none).medicines = st.medicines ∧
    (load_words_from_database st none).diagnoses = st.diagnoses ∧
    (load_words_from_database st none).phrases = st.phrases ∧
    (load_words_from_database st none).usages = st.usages ∧
    (load_words_from_database st none).all_words = [] ∧
    save_only st true true none = (load_words_from_database st none, true) :=
  ⟨rfl, rfl, rfl, rfl, rfl, rfl⟩

/-! ## Counter-key helper lemmas -/

theorem mem_keys_bump_self (key : PyStr) : ∀ l, key ∈ keys (bump key l) := by
  intro l
  induction l with
  | nil => simp [bump, keys]
  | cons kv rest ih =>
    obtain ⟨k, c⟩ := kv
    simp only [bump]
    split
    · next heq => simp [keys, heq]
    · simp only [keys, List.map_cons]
      exact List.mem_cons_of_mem _ ih

theorem mem_keys_bump_mono {a : PyStr} (key : PyStr) :
    ∀ {l}, a ∈ keys l → a ∈ keys (bump key l) := by
  intro l
  induction l with
  | nil => intro h; simp [keys] at h
  | cons kv rest ih =>
    obtain ⟨k, c⟩ := kv
    intro h
    simp only [keys, List.map_cons, List.mem_cons] at h
    simp only [bump]
    split
    · next heq =>
      simp only [keys, List.map_cons, List.mem_cons]
      exact h
    · simp only [keys, List.map_cons, List.mem_cons]
      rcases h with h | h
      · exact Or.inl h
      · exact Or.inr (ih h)

theorem keys_bump_sub {a key : PyStr} :
    ∀ {l}, a ∈ keys (bump key l) → a = key ∨ a ∈ keys l := by
  intro l
  induction l with
  | nil =>
    intro h
    simp [bump, keys] at h
    exact Or.inl h
  | cons kv rest ih =>
    obtain ⟨k, c⟩ := kv
    intro h
    simp only [bump] at h
    split at h
    · next heq =>
      simp only [keys, List.map_cons, List.mem_cons] at h ⊢
      rcases h with h | h
      · exact Or.inr (Or.inl h)
      · exact Or.inr (Or.inr h)
    · simp only [keys, List.map_cons, List.mem_cons] at h ⊢
      rcases h with h | h
      · exact Or.inr (Or.inl h)
      · rcases ih h with h2 | h2
        · exact Or.inl h2
        · exact Or.inr (Or.inr h2)

/-! ## Diagnosis tokenization (C6) -/

theorem keys_diagFold_mono :
    ∀ (ws : List PyStr) (acc : List (PyStr × ℕ)) (k : PyStr), k ∈ keys acc →
      k ∈ keys (ws.foldl
        (fun acc w => if 2 ≤ (pyTrim w).length then bump (pyTrim w) acc else acc) acc) := by
  intro ws
  induction ws with
  | nil => intro acc k h; exact h
  | cons w ws ih =>
    intro acc k h
    rw [List.foldl_cons]
    apply ih
    dsimp only
    split
    · exact mem_keys_bump_mono _ h
    · exact h

theorem keys_diagFold_sub :
    ∀ (ws : List PyStr) (acc : List (PyStr × ℕ)) (k : PyStr),
      k ∈ keys (ws.foldl
        (fun acc w => if 2 ≤ (pyTrim w).length then bump (pyTrim w) acc else acc) acc) →
      k ∈ keys acc ∨ (2 ≤ k.length ∧ ∃ w ∈ ws, k = pyTrim w) := by
  intro ws
  induction ws with
  | nil => intro acc k h; exact Or.inl h
  | cons w ws ih =>
    intro acc k h
    rw [List.foldl_cons] at h
    rcases ih _ k h with h1 | h1
    · split at h1
      · next hlen =>
        rcases keys_bump_sub h1 with h2 | h2
        · subst h2
          exact Or.inr ⟨hlen, w, List.mem_cons_self _ _, rfl⟩
        · exact Or.inl h2
      · exact Or.inl h1
    · obtain ⟨hlen, w2, hw2, hk⟩ := h1
      exact Or.inr ⟨hlen, w2, List.mem_cons_of_mem _ hw2, hk⟩

theorem keys_diagFold_hit :
    ∀ (ws : List PyStr) (acc : List (PyStr × ℕ)) (w : PyStr), w ∈ ws →
      2 ≤ (pyTrim w).length →
      pyTrim w ∈ keys (ws.foldl
        (fun acc w => if 2 ≤ (pyTrim w).length then bump (pyTrim w) acc else acc) acc) := by
  intro ws
  induction ws with
  | nil => intro acc w h; exact absurd h (List.not_mem_nil _)
  | cons w0 ws ih =>
    intro acc w hmem hlen
    rw [List.foldl_cons]
    rcases List.mem_cons.mp hmem with rfl | hmem2
    · apply keys_diagFold_mono
      dsimp only
      rw [if_pos hlen]
      exact mem_keys_bump_self _ _
    · exact ih _ w hmem2 hlen

/-- Counterexample to C6: the ASCII period is not in the delimiter set of
the diagnosis tokenizer — the input `气虚.血瘀` is counted as the single
token `气虚.血瘀` (which still contains the period), not split into
`气虚` and `血瘀` as the claimed delimiter set (containing "period")
would require. -/
theorem diagnosis_period_counterexample :
    countDiagnosis [] "气虚.血瘀".toList = [("气虚.血瘀".toList, 1)] ∧
    countDiagnosis [] "气虚.血瘀".toList ≠ [("气虚".toList, 1), ("血瘀".toList, 1)] ∧
    '.' ∈ "气虚.血瘀".toList := by
  refine ⟨by decide, by decide, by decide⟩

/-- C6 (amended) — the diagnosis tokenizer splits each non-empty field on
the delimiter set comma (ASCII and fullwidth), ideographic period,
enumeration comma, fullwidth semicolon, colon (ASCII and fullwidth),
square brackets (ASCII and fullwidth) and whitespace — the ASCII period
is NOT a delimiter — and counts exactly the resulting tokens whose
trimmed length is at least 2: the input `脾虚，湿盛` yields exactly the
two diagnosis tokens `脾虚` and `湿盛`. -/
theorem diagnosis_tokenization (d : PyStr) :
    countDiagnosis [] "脾虚，湿盛".toList = [("脾虚".toList, 1), ("湿盛".toList, 1)] ∧
    diagDelim '.' = false ∧ diagDelim ',' = true ∧ diagDelim '，' = true ∧
    diagDelim '。' = true ∧ diagDelim '、' = true ∧ diagDelim '；' = true ∧
    diagDelim ':' = true ∧ diagDelim '：' = true ∧ diagDelim '[' = true ∧
    diagDelim '】' = true ∧ diagDelim ' ' = true ∧
    (∀ k ∈ keys (countDiagnosis [] d),
      2 ≤ k.length ∧ ∃ w ∈ splitRuns diagDelim d, k = pyTrim w) ∧
    (∀ w ∈ splitRuns diagDelim d, 2 ≤ (pyTrim w).length →
      pyTrim w ∈ keys (countDiagnosis [] d)) := by
  refine ⟨by decide, by decide, by decide, by decide, by decide, by decide, by decide,
    by decide, by decide, by decide, by decide, by decide, ?_, ?_⟩
  · intro k hk
    unfold countDiagnosis at hk
    split at hk
    · simp [keys] at hk
    · rcases keys_diagFold_sub _ _ _ hk with h | h
      · simp [keys] at h
      · exact h
  · intro w hw hlen
    unfold countDiagnosis
    split
    · next hd =>
      have hdnil : d = [] := List.isEmpty_iff.mp hd
      subst hdnil
      have : w = ([] : PyStr) := by
        have : splitRuns diagDelim ([] : PyStr) = [[]] := rfl
        rw [this] at hw
        simpa using hw
      subst this
      have : pyTrim ([] : PyStr) = [] := rfl
      rw [this] at hlen
      simp at hlen
    · exact keys_diagFold_hit _ _ w hw hlen

/-- Witness for the amended C6: the token `脾虚` of `脾虚，湿盛` is
counted. -/
theorem diagnosis_tokenization_witness :
    pyTrim "脾虚".toList ∈ keys (countDiagnosis [] "脾虚，湿盛".toList) :=
  (diagnosis_tokenization "脾虚，湿盛".toList).2.2.2.2.2.2.2.2.2.2.2.2.2
    "脾虚".toList (by decide) (by decide)

/-! ## Medicine and phrase category membership (C5) -/

theorem keys_medParts_mono :
    ∀ (parts : List PyStr) (acc : List (PyStr × ℕ)) (k : PyStr), k ∈ keys acc →
      k ∈ keys (countMedicineParts acc parts) := by
  intro parts
  induction parts with
  | nil => intro acc k h; exact h
  | cons part ps ih =>
    intro acc k h
    simp only [countMedicineParts]
    apply ih
    split
    · exact mem_keys_bump_mono _ h
    · exact h

theorem keys_medParts_hit :
    ∀ (parts : List PyStr) (acc : List (PyStr × ℕ)) (part : PyStr), part ∈ parts →
      2 ≤ (stripMedicine part).length → (stripMedicine part).length ≤ 6 →
      stripMedicine part ∈ keys (countMedicineParts acc parts) := by
  intro parts
  induction parts with
  | nil => intro acc part h; exact absurd h (List.not_mem_nil _)
  | cons p0 ps ih =>
    intro acc part hmem h2 h6
    simp only [countMedicineParts]
    rcases List.mem_cons.mp hmem with rfl | hmem2
    · apply keys_medParts_mono
      rw [if_pos ⟨h2, h6⟩]
      exact mem_keys_bump_self _ _
    · exact ih _ part hmem2 h2 h6

theorem processLine_medicine_mono (cs : Counters) (l k : PyStr)
    (h : k ∈ keys cs.medicine_words) :
    k ∈ keys (processLine cs l).medicine_words :=
  keys_medParts_mono _ _ _ h

theorem processLine_phrase_mono (cs : Counters) (l k : PyStr)
    (h : k ∈ keys cs.prescription_phrases) :
    k ∈ keys (processLine cs l).prescription_phrases := by
  show k ∈ keys (if 4 ≤ l.length then bump l cs.prescription_phrases
    else cs.prescription_phrases)
  split
  · exact mem_keys_bump_mono _ h
  · exact h

theorem processPrescription_medicine_mono :
    ∀ (lines : List PyStr) (cs : Counters) (k : PyStr), k ∈ keys cs.medicine_words →
      k ∈ keys (processPrescription cs lines).medicine_words := by
  intro lines
  induction lines with
  | nil => intro cs k h; exact h
  | cons line rest ih =>
    intro cs k h
    simp only [processPrescription]
    split
    · exact ih cs k h
    · exact ih _ k (processLine_medicine_mono cs _ k h)

theorem processPrescription_phrase_mono :
    ∀ (lines : List PyStr) (cs : Counters) (k : PyStr), k ∈ keys cs.prescription_phrases →
      k ∈ keys (processPrescription cs lines).prescription_phrases := by
  intro lines
  induction lines with
  | nil => intro cs k h; exact h
  | cons line rest ih =>
    intro cs k h
    simp only [processPrescription]
    split
    · exact ih cs k h
    · exact ih _ k (processLine_phrase_mono cs _ k h)

theorem processPrescription_medicine_hit :
    ∀ (lines : List PyStr) (cs : Counters) (line part : PyStr),
      line ∈ lines → (pyTrim line).isEmpty = false →
      part ∈ splitRuns medDelim (pyTrim line) →
      2 ≤ (stripMedicine part).length → (stripMedicine part).length ≤ 6 →
      stripMedicine part ∈ keys (processPrescription cs lines).medicine_words := by
  intro lines
  induction lines with
  | nil => intro cs line part h; exact absurd h (List.not_mem_nil _)
  | cons l0 rest ih =>
    intro cs line part hmem hne hp h2 h6
    simp only [processPrescription]
    rcases List.mem_cons.mp hmem with rfl | hmem2
    · simp only [hne, Bool.false_eq_true, if_false]
      exact processPrescription_medicine_mono rest _ _
        (keys_medParts_hit _ _ part hp h2 h6)
    · split
      · exact ih cs line part hmem2 hne hp h2 h6
      · exact ih _ line part hmem2 hne hp h2 h6

theorem processPrescription_phrase_hit :
    ∀ (lines : List PyStr) (cs : Counters) (line : PyStr),
      line ∈ lines → (pyTrim line).isEmpty = false → 4 ≤ (pyTrim line).length →
      pyTrim line ∈ keys (processPrescription cs lines).prescription_phrases := by
  intro lines
  induction lines with
  | nil => intro cs line h; exact absurd h (List.not_mem_nil _)
  | cons l0 rest ih =>
    intro cs line hmem hne hlen
    simp only [processPrescription]
    rcases List.mem_cons.mp hmem with rfl | hmem2
    · simp only [hne, Bool.false_eq_true, if_false]
      apply processPrescription_phrase_mono rest
      show pyTrim line ∈ keys (if 4 ≤ (pyTrim line).length
        then bump (pyTrim line) cs.prescription_phrases else cs.prescription_phrases)
      rw [if_pos hlen]
      exact mem_keys_bump_self _ _
    · split
      · exact ih cs line hmem2 hne hlen
      · exact ih _ line hmem2 hne hlen

theorem processRow_medicine_mono (cs : Counters) (r : PrescriptionRecord) (k : PyStr)
    (h : k ∈ keys cs.medicine_words) :
    k ∈ keys (processRow cs r).medicine_words := by
  unfold processRow
  dsimp only
  split <;> split <;>
    first
      | exact h
      | exact processPrescription_medicine_mono _ _ _ h

theorem processRow_phrase_mono (cs : Counters) (r : PrescriptionRecord) (k : PyStr)
    (h : k ∈ keys cs.prescription_phrases) :
    k ∈ keys (processRow cs r).prescription_phrases := by
  unfold processRow
  dsimp only
  split <;> split <;>
    first
      | exact h
      | exact processPrescription_phrase_mono _ _ _ h

theorem prescription_isEmpty_false_of_line (r : PrescriptionRecord) (line : PyStr)
    (hline : line ∈ splitNl r.prescription) (hne : (pyTrim line).isEmpty = false) :
    r.prescription.isEmpty = false := by
  cases hp : r.prescription.isEmpty
  · rfl
  · have hnil : r.prescription = [] := List.isEmpty_iff.mp hp
    rw [hnil] at hline
    have hl : line = ([] : PyStr) := by simpa [splitNl] using hline
    rw [hl] at hne
    simp [pyTrim] at hne

theorem processRow_medicine_hit (cs : Counters) (r : PrescriptionRecord)
    (line part : PyStr)
    (hline : line ∈ splitNl r.prescription) (hne : (pyTrim line).isEmpty = false)
    (hp : part ∈ splitRuns medDelim (pyTrim line))
    (h2 : 2 ≤ (stripMedicine part).length) (h6 : (stripMedicine part).length ≤ 6) :
    stripMedicine part ∈ keys (processRow cs r).medicine_words := by
  have hpres := prescription_isEmpty_false_of_line r line hline hne
  have hkey : stripMedicine part ∈ keys (processPrescription
      { cs with diagnosis_words := countDiagnosis cs.diagnosis_words r.diagnosis }
      (splitNl r.prescription)).medicine_words :=
    processPrescription_medicine_hit _ _ line part hline hne hp h2 h6
  unfold processRow
  dsimp only
  split <;> simp only [hpres, Bool.false_eq_true, if_false] <;> exact hkey

theorem processRow_phrase_hit (cs : Counters) (r : PrescriptionRecord) (line : PyStr)
    (hline : line ∈ splitNl r.prescription) (hne : (pyTrim line).isEmpty = false)
    (hlen : 4 ≤ (pyTrim line).length) :
    pyTrim line ∈ keys (processRow cs r).prescription_phrases := by
  have hpres := prescription_isEmpty_false_of_line r line hline hne
  have hkey : pyTrim line ∈ keys (processPrescription
      { cs with diagnosis_words := countDiagnosis cs.diagnosis_words r.diagnosis }
      (splitNl r.prescription)).prescription_phrases :=
    processPrescription_phrase_hit _ _ line hline hne hlen
  unfold processRow
  dsimp only
  split <;> simp only [hpres, Bool.false_eq_true, if_false] <;> exact hkey

theorem counters_medicine_mono :
    ∀ (rows : List PrescriptionRecord) (cs : Counters) (k : PyStr),
      k ∈ keys cs.medicine_words →
      k ∈ keys (rows.foldl processRow cs).medicine_words := by
  intro rows
  induction rows with
  | nil => intro cs k h; exact h
  | cons r rs ih =>
    intro cs k h
    rw [List.foldl_cons]
    exact ih _ k (processRow_medicine_mono cs r k h)

theorem counters_phrase_mono :
    ∀ (rows : List PrescriptionRecord) (cs : Counters) (k : PyStr),
      k ∈ keys cs.prescription_phrases →
      k ∈ keys (rows.foldl processRow cs).prescription_phrases := by
  intro rows
  induction rows with
  | nil => intro cs k h; exact h
  | cons r rs ih =>
    intro cs k h
    rw [List.foldl_cons]
    exact ih _ k (processRow_phrase_mono cs r k h)

theorem counters_medicine_hit :
    ∀ (rows : List PrescriptionRecord) (cs : Counters) (r : PrescriptionRecord),
      r ∈ rows → ∀ line part : PyStr,
      line ∈ splitNl r.prescription → (pyTrim line).isEmpty = false →
      part ∈ splitRuns medDelim (pyTrim line) →
      2 ≤ (stripMedicine part).length → (stripMedicine part).length ≤ 6 →
      stripMedicine part ∈ keys (rows.foldl processRow cs).medicine_words := by
  intro rows
  induction rows with
  | nil => intro cs r h; exact absurd h (List.not_mem_nil _)
  | cons r0 rs ih =>
    intro cs r hmem line part hline hne hp h2 h6
    rw [List.foldl_cons]
    rcases List.mem_cons.mp hmem with rfl | hmem2
    · exact counters_medicine_mono rs _ _
        (processRow_medicine_hit cs r line part hline hne hp h2 h6)
    · exact ih _ r hmem2 line part hline hne hp h2 h6

theorem counters_phrase_hit :
    ∀ (rows : List PrescriptionRecord) (cs : Counters) (r : PrescriptionRecord),
      r ∈ rows → ∀ line : PyStr,
      line ∈ splitNl r.prescription → (pyTrim line).isEmpty = false →
      4 ≤ (pyTrim line).length →
      pyTrim line ∈ keys (rows.foldl processRow cs).prescription_phrases := by
  intro rows
  induction rows with
  | nil => intro cs r h; exact absurd h (List.not_mem_nil _)
  | cons r0 rs ih =>
    intro cs r hmem line hline hne hlen
    rw [List.foldl_cons]
    rcases List.mem_cons.mp hmem with rfl | hmem2
    · exact counters_phrase_mono rs _ _
        (processRow_phrase_hit cs r line hline hne hlen)
    · exact ih _ r hmem2 line hline hne hlen

/-- C5 — for every record set and record in it whose prescription body
contains (as one of its newline-split lines, after stripping) the line
`黄芪15g，当归10g`, the medicine token `黄芪` — the part `黄芪15g` with
the trailing numeric-and-after suffix stripped, then the trailing
unit-and-after suffix stripped, remaining length 2 ∈ [2,6] — is a key of
the medicines frequency table, and the whole line is a key of the phrase
frequency table (its trimmed length 9 is at least 4). -/
theorem medicine_and_phrase_membership (rows : List PrescriptionRecord)
    (r : PrescriptionRecord) (hr : r ∈ rows)
    (hline : ∃ line ∈ splitNl r.prescription, pyTrim line = sampleLine) :
    stripMedicine "黄芪15g".toList = "黄芪".toList ∧
    "黄芪".toList ∈ keys (counters rows).medicine_words ∧
    sampleLine ∈ keys (counters rows).prescription_phrases := by
  obtain ⟨line, hlmem, hltrim⟩ := hline
  have hne : (pyTrim line).isEmpty = false := by rw [hltrim]; decide
  have hpart : "黄芪15g".toList ∈ splitRuns medDelim (pyTrim line) := by
    rw [hltrim]; decide
  have hstrip : stripMedicine "黄芪15g".toList = "黄芪".toList := by decide
  refine ⟨hstrip, ?_, ?_⟩
  · have h := counters_medicine_hit rows initCounters r hr line "黄芪15g".toList
      hlmem hne hpart (by decide) (by decide)
    rw [hstrip] at h
    exact h
  · have h := counters_phrase_hit rows initCounters r hr line hlmem hne
      (by rw [hltrim]; decide)
    rw [hltrim] at h
    exact h

/-- Witness for C5 at a one-record store holding exactly the sample
line. -/
theorem medicine_and_phrase_membership_witness :
    stripMedicine "黄芪15g".toList = "黄芪".toList ∧
    "黄芪".toList ∈ keys (counters [sampleRow]).medicine_words ∧
    sampleLine ∈ keys (counters [sampleRow]).prescription_phrases :=
  medicine_and_phrase_membership [sampleRow] sampleRow (by decide)
    ⟨sampleLine, by decide, by decide⟩

/-! ## Top-N ranking (C4) -/

theorem mem_insertRanked {z x : PyStr × ℕ} :
    ∀ {l : List (PyStr × ℕ)}, z ∈ insertRanked x l → z = x ∨ z ∈ l := by
  intro l
  induction l with
  | nil => intro h; simpa [insertRanked] using h
  | cons y ys ih =>
    intro h
    simp only [insertRanked] at h
    split at h
    · rcases List.mem_cons.mp h with h1 | h1
      · exact Or.inl h1
      · exact Or.inr h1
    · rcases List.mem_cons.mp h with h1 | h1
      · exact Or.inr (List.mem_cons.mpr (Or.inl h1))
      · rcases ih h1 with h2 | h2
        · exact Or.inl h2
        · exact Or.inr (List.mem_cons_of_mem _ h2)

theorem insertRanked_sorted (x : PyStr × ℕ) :
    ∀ (l : List (PyStr × ℕ)), CountSorted l → CountSorted (insertRanked x l) := by
  intro l
  induction l with
  | nil => intro _; simp [insertRanked, CountSorted]
  | cons y ys ih =>
    intro h
    have hhead : ∀ z ∈ ys, z.2 ≤ y.2 := (List.pairwise_cons.mp h).1
    have htail : CountSorted ys := (List.pairwise_cons.mp h).2
    simp only [insertRanked]
    split
    · next hlt =>
      exact List.Pairwise.cons
        (by
          intro z hz
          rcases List.mem_cons.mp hz with rfl | hz2
          · exact hlt.le
          · exact le_trans (hhead z hz2) hlt.le)
        h
    · next hge =>
      exact List.Pairwise.cons
        (by
          intro z hz
          rcases mem_insertRanked hz with rfl | hz2
          · exact not_lt.mp hge
          · exact hhead z hz2)
        (ih htail)

theorem insertRanked_filter_ne (x : PyStr × ℕ) (c : ℕ) (hc : x.2 ≠ c) :
    ∀ (l : List (PyStr × ℕ)),
      (insertRanked x l).filter (fun y => y.2 == c)
        = l.filter (fun y => y.2 == c) := by
  have hx : (x.2 == c) = false := by simpa using hc
  intro l
  induction l with
  | nil => simp [insertRanked, hx]
  | cons y ys ih =>
    simp only [insertRanked]
    split
    · simp [List.filter_cons, hx]
    · simp only [List.filter_cons, ih]

theorem insertRanked_filter_eq (x : PyStr × ℕ) (c : ℕ) (hc : x.2 = c) :
    ∀ (l : List (PyStr × ℕ)), CountSorted l →
      (insertRanked x l).filter (fun y => y.2 == c)
        = l.filter (fun y => y.2 == c) ++ [x] := by
  have hx : (x.2 == c) = true := by simpa using hc
  intro l
  induction l with
  | nil => intro _; simp [insertRanked, hx]
  | cons y ys ih =>
    intro h
    have hhead : ∀ z ∈ ys, z.2 ≤ y.2 := (List.pairwise_cons.mp h).1
    have htail : CountSorted ys := (List.pairwise_cons.mp h).2
    simp only [insertRanked]
    split
    · next hlt =>
      have hy : (y.2 == c) = false := by
        simp only [beq_eq_false_iff_ne]
        omega
      have hz : ∀ z ∈ ys, (z.2 == c) = false := by
        intro z hz2
        simp only [beq_eq_false_iff_ne]
        have := hhead z hz2
        omega
      have hfil : ys.filter (fun y => y.2 == c) = [] := by
        rw [List.filter_eq_nil_iff]
        intro z hz2
        simp [hz z hz2]
      simp [List.filter_cons, hx, hy, hfil]
    · next hge =>
      simp only [List.filter_cons, ih htail]
      split
      · simp
      · rfl

theorem rankDesc_go_sorted :
    ∀ (l acc : List (PyStr × ℕ)), CountSorted acc →
      CountSorted (l.foldl (fun acc x => insertRanked x acc) acc) := by
  intro l
  induction l with
  | nil => intro acc h; exact h
  | cons x xs ih =>
    intro acc h
    rw [List.foldl_cons]
    exact ih _ (insertRanked_sorted x acc h)

theorem rankDesc_sorted (l : List (PyStr × ℕ)) : CountSorted (rankDesc l) :=
  rankDesc_go_sorted l [] List.Pairwise.nil

theorem rankDesc_go_filter (c : ℕ) :
    ∀ (l acc : List (PyStr × ℕ)), CountSorted acc →
      (l.foldl (fun acc x => insertRanked x acc) acc).filter (fun y => y.2 == c)
        = acc.filter (fun y => y.2 == c) ++ l.filter (fun y => y.2 == c) := by
  intro l
  induction l with
  | nil => intro acc h; simp
  | cons x xs ih =>
    intro acc h
    rw [List.foldl_cons, ih _ (insertRanked_sorted x acc h)]
    by_cases hx : x.2 = c
    · rw [insertRanked_filter_eq x c hx acc h]
      have hxb : (x.2 == c) = true := by simpa using hx
      simp [List.filter_cons, hxb, List.append_assoc]
    · rw [insertRanked_filter_ne x c hx acc]
      have hxb : (x.2 == c) = false := by simpa using hx
      simp [List.filter_cons, hxb]

theorem rankDesc_filter (l : List (PyStr × ℕ)) (c : ℕ) :
    (rankDesc l).filter (fun y => y.2 == c) = l.filter (fun y => y.2 == c) := by
  simpa using rankDesc_go_filter c l [] List.Pairwise.nil

theorem most_common_length_le (l : List (PyStr × ℕ)) (n : ℕ) :
    (most_common l n).length ≤ n := by
  simp only [most_common, List.length_map, List.length_take]
  exact min_le_left _ _

/-- C4 — for every record set, the indexer's four ranked categories are
the top-N keys of the corresponding frequency counter with N = 100
(medicines), 50 (diagnoses), 30 (phrases) and 20 (usages): each output
has length at most N, the ranking is by non-increasing frequency, and
entries of equal frequency keep exactly their counter (first-discovery /
insertion) order — the filter of the ranked list at every frequency value
equals the filter of the insertion-ordered counter.  All outputs are a
pure function of the record set, hence deterministic. -/
theorem indexer_topN_ranking (rows : List PrescriptionRecord) (st : PanelState) :
    ((load_words_from_database st (some rows)).medicines
        = most_common (counters rows).medicine_words 100 ∧
      (load_words_from_database st (some rows)).diagnoses
        = most_common (counters rows).diagnosis_words 50 ∧
      (load_words_from_database st (some rows)).phrases
        = most_common (counters rows).prescription_phrases 30 ∧
      (load_words_from_database st (some rows)).usages
        = most_common (counters rows).usage_words 20) ∧
    ((load_words_from_database st (some rows)).medicines.length ≤ 100 ∧
      (load_words_from_database st (some rows)).diagnoses.length ≤ 50 ∧
      (load_words_from_database st (some rows)).phrases.length ≤ 30 ∧
      (load_words_from_database st (some rows)).usages.length ≤ 20) ∧
    (CountSorted (rankDesc (counters rows).medicine_words) ∧
      CountSorted (rankDesc (counters rows).diagnosis_words) ∧
      CountSorted (rankDesc (counters rows).prescription_phrases) ∧
      CountSorted (rankDesc (counters rows).usage_words)) ∧
    (∀ c : ℕ,
      (rankDesc (counters rows).medicine_words).filter (fun y => y.2 == c)
        = (counters rows).medicine_words.filter (fun y => y.2 == c) ∧
      (rankDesc (counters rows).diagnosis_words).filter (fun y => y.2 == c)
        = (counters rows).diagnosis_words.filter (fun y => y.2 == c) ∧
      (rankDesc (counters rows).prescription_phrases).filter (fun y => y.2 == c)
        = (counters rows).prescription_phrases.filter (fun y => y.2 == c) ∧
      (rankDesc (counters rows).usage_words).filter (fun y => y.2 == c)
        = (counters rows).usage_words.filter (fun y => y.2 == c)) :=
  ⟨⟨rfl, rfl, rfl, rfl⟩,
   ⟨most_common_length_le _ _, most_common_length_le _ _,
    most_common_length_le _ _, most_common_length_le _ _⟩,
   ⟨rankDesc_sorted _, rankDesc_sorted _, rankDesc_sorted _, rankDesc_sorted _⟩,
   fun c => ⟨rankDesc_filter _ c, rankDesc_filter _ c, rankDesc_filter _ c,
    rankDesc_filter _ c⟩⟩

end TCM
